import Mathlib

/-!
Shallow embedding of the vidfx CLI (src/main.rs) for verification.

Rust `f64` values are modelled as exact rationals (`ℚ`) wherever the program
only adds, multiplies, divides and takes remainders of them (every finite
`f64` is a rational, and the claims under study quantify over exact values);
the tempo modulator's output lives in `ℝ` because its Sine branch applies the
real sine function. Rust `u8` components are modelled as natural numbers
below 256. Fallible decoding is modelled with `Except`.
-/

namespace Vidfx

/-- `WaveType` from src/main.rs. -/
inductive WaveType where
  | sine
  | saw
  | square
  | triangle
deriving DecidableEq

/-- `VisualizationMode` from src/main.rs: either the default (no modulation)
or an oscillator driven by a bpm and a waveform. -/
inductive VisualizationMode where
  | default
  | osc (bpm : ℕ) (wave_type : WaveType)
deriving DecidableEq

/-- Truncation toward zero of a rational, the rounding used by Rust's `%`
on floats (`fmod`). -/
def rtrunc (q : ℚ) : ℤ :=
  if 0 ≤ q then ⌊q⌋ else ⌈q⌉

/-- Rust `%` on `f64` operands: `a % b = a - b * trunc (a / b)` (remainder
carrying the dividend's sign). -/
def fmod (a b : ℚ) : ℚ :=
  a - b * rtrunc (a / b)

/-- The `beat_duration` local of `bpm_scale_factor` in src/main.rs:
`60.0 / bpm as f64`. -/
def beat_duration (bpm : ℕ) : ℚ :=
  60 / (bpm : ℚ)

/-- The `beat_progress` local of `bpm_scale_factor` in src/main.rs:
`(current_time % beat_duration) / beat_duration`. -/
def beat_progress (bpm : ℕ) (current_time : ℚ) : ℚ :=
  fmod current_time (beat_duration bpm) / beat_duration bpm

/-- `bpm_scale_factor` from src/main.rs: the tempo modulator, a pure function
of bpm, waveform and elapsed time. -/
noncomputable def bpm_scale_factor (bpm : ℕ) (wave_type : WaveType) (current_time : ℚ) : ℝ :=
  let p := beat_progress bpm current_time
  match wave_type with
  | .sine => Real.sin ((p : ℝ) * Real.pi * 2) * 0.5 + 0.5
  | .saw => ((1 - p : ℚ) : ℝ)
  | .square => if p < 0.5 then (1 : ℝ) else 0
  | .triangle => ((1 - |2 * p - 1| : ℚ) : ℝ)

/-- Rust `x as u8` on an `f64` value: saturating cast, truncating toward
zero inside the representable range. -/
noncomputable def f64_to_u8 (x : ℝ) : ℕ :=
  if x < 0 then 0 else min 255 ⌊x⌋.toNat

/-- `scaled_color` from src/main.rs: each 8-bit component is multiplied by
the scale factor as a float and cast back to `u8`. -/
noncomputable def scaled_color (rgb : ℕ × ℕ × ℕ) (scale_factor : ℝ) : ℕ × ℕ × ℕ :=
  (f64_to_u8 ((rgb.1 : ℝ) * scale_factor),
   f64_to_u8 ((rgb.2.1 : ℝ) * scale_factor),
   f64_to_u8 ((rgb.2.2 : ℝ) * scale_factor))

/-- One RGBA pixel (four 8-bit samples). -/
structure Rgba where
  r : ℕ
  g : ℕ
  b : ℕ
  a : ℕ
deriving DecidableEq

/-- One RGB pixel (three 8-bit samples). -/
structure Rgb where
  r : ℕ
  g : ℕ
  b : ℕ
deriving DecidableEq

/-- An RGBA image: dimensions plus the row-major pixel sequence. -/
structure RgbaImage where
  width : ℕ
  height : ℕ
  pixels : List Rgba
deriving DecidableEq

/-- An RGB image: dimensions plus the row-major pixel sequence. -/
structure RgbImage where
  width : ℕ
  height : ℕ
  pixels : List Rgb
deriving DecidableEq

/-- The per-pixel map of `rgba_to_rgb` in src/main.rs:
`let [r, g, b, _a] = p.0; vec![r, g, b]`. -/
def drop_alpha (p : Rgba) : Rgb :=
  ⟨p.r, p.g, p.b⟩

/-- `rgba_to_rgb` from src/main.rs: rebuilds the buffer at the same
dimensions with the alpha sample of every pixel dropped. -/
def rgba_to_rgb (image : RgbaImage) : RgbImage :=
  ⟨image.width, image.height, image.pixels.map drop_alpha⟩

/-- The frame loop of `process_video` in src/main.rs. The decoder's
`decode_iter` is modelled as the list of its per-frame results, an
`Except.error` standing for a frame-level decode error; on such a result the
source takes the `else break` arm. Per kept frame the scale factor is 1.0 in
default mode and `bpm_scale_factor` of the accumulated time otherwise, and
the time advances by `1.0 / frame_rate`. -/
noncomputable def process_frames (visualization_mode : VisualizationMode)
    (frame_processor : RgbImage → ℝ → RgbaImage) (frame_rate : ℚ)
    (current_time : ℚ) : List (Except Unit RgbImage) → List RgbaImage
  | [] => []
  | Except.error _ :: _ => []
  | Except.ok frame :: rest =>
      let scale_factor : ℝ :=
        match visualization_mode with
        | .default => 1
        | .osc bpm wave_type => bpm_scale_factor bpm wave_type current_time
      frame_processor frame scale_factor ::
        process_frames visualization_mode frame_processor frame_rate
          (current_time + 1 / frame_rate) rest

/-- `process_video` from src/main.rs: runs the frame loop from time 0 and
returns the processed frames in decode order. -/
noncomputable def process_video (decoded : List (Except Unit RgbImage))
    (frame_processor : RgbImage → ℝ → RgbaImage) (frame_rate : ℚ)
    (visualization_mode : VisualizationMode) : List RgbaImage :=
  process_frames visualization_mode frame_processor frame_rate 0 decoded

/-- The encode loop of `main` in src/main.rs: for each processed frame it
hands `rgba_to_rgb` of the frame to the encoder stamped at `position`, then
advances `position` by `frame_interval = 1.0 / frame_rate`; `position` starts
at `Time::zero()`. The emitted list pairs each encoder input with its
presentation time. -/
def encode_frames (frame_rate : ℚ) (position : ℚ) : List RgbaImage → List (RgbImage × ℚ)
  | [] => []
  | frame :: rest =>
      (rgba_to_rgb frame, position) ::
        encode_frames frame_rate (position + 1 / frame_rate) rest

/-- The `visualization_mode` match in `main` (src/main.rs): `none` models a
fatal panic (the `expect` on a missing `--bpm`, or the `panic!` on an unknown
mode name), which aborts the process before any frame is decoded or encoded. -/
def parse_visualization_mode (visualization : String) (bpm : Option ℕ) : Option VisualizationMode :=
  match visualization with
  | "default" => some .default
  | "sine" => bpm.map fun b => .osc b .sine
  | "saw" => bpm.map fun b => .osc b .saw
  | "square" => bpm.map fun b => .osc b .square
  | "triangle" => bpm.map fun b => .osc b .triangle
  | _ => none

/-- The threshold arguments the `Sort` arm of `process_subcommand`
(src/main.rs) passes to the external sorter:
`*min_threshold * scale_factor as f32` and
`*max_threshold * scale_factor as f32` (the `f64` to `f32` cast is the
identity in the exact real-valued model). -/
noncomputable def sort_call_thresholds (min_threshold max_threshold : ℚ)
    (scale_factor : ℝ) : ℝ × ℝ :=
  ((min_threshold : ℝ) * scale_factor, (max_threshold : ℝ) * scale_factor)

/-- Modelled from the spec: the pixel sorter lives in the external `imgfx`
crate and its code is not under src/; spec §4.4 states that threshold
"values outside [0,1] after modulation scaling are clamped, not rejected",
so its threshold handling is the clamp of a real into [0,1]. -/
noncomputable def sorter_clamp_threshold (x : ℝ) : ℝ :=
  max 0 (min 1 x)

/-! ### Tempo modulator lemmas -/

lemma beat_duration_pos (bpm : ℕ) (hb : 0 < bpm) : 0 < beat_duration bpm := by
  unfold beat_duration
  exact div_pos (by norm_num) (by exact_mod_cast hb)

lemma beat_progress_eq_fract (bpm : ℕ) (t : ℚ) (hb : 0 < bpm) (ht : 0 ≤ t) :
    beat_progress bpm t = Int.fract (t / beat_duration bpm) := by
  have hd : 0 < beat_duration bpm := beat_duration_pos bpm hb
  have hq : 0 ≤ t / beat_duration bpm := div_nonneg ht hd.le
  unfold beat_progress fmod rtrunc
  rw [if_pos hq, Int.fract, sub_div, mul_div_cancel_left₀ _ hd.ne']

lemma beat_progress_nonneg (bpm : ℕ) (t : ℚ) (hb : 0 < bpm) (ht : 0 ≤ t) :
    0 ≤ beat_progress bpm t := by
  rw [beat_progress_eq_fract bpm t hb ht]
  exact Int.fract_nonneg _

lemma beat_progress_lt_one (bpm : ℕ) (t : ℚ) (hb : 0 < bpm) (ht : 0 ≤ t) :
    beat_progress bpm t < 1 := by
  rw [beat_progress_eq_fract bpm t hb ht]
  exact Int.fract_lt_one _

lemma bpm_scale_factor_saw (bpm : ℕ) (t : ℚ) :
    bpm_scale_factor bpm .saw t = ((1 - beat_progress bpm t : ℚ) : ℝ) := rfl

lemma bpm_scale_factor_square (bpm : ℕ) (t : ℚ) :
    bpm_scale_factor bpm .square t =
      if beat_progress bpm t < 0.5 then (1 : ℝ) else 0 := rfl

/-- C2: for every bpm > 0 and elapsed time t ≥ 0, the Saw scale factor is
`1 - phase` where `phase = (t mod (60/bpm)) / (60/bpm)`, and the result lies
in the half-open range (0, 1]. -/
theorem saw_scale_factor (bpm : ℕ) (t : ℚ) (hb : 0 < bpm) (ht : 0 ≤ t) :
    bpm_scale_factor bpm .saw t = 1 - (beat_progress bpm t : ℝ) ∧
    0 < bpm_scale_factor bpm .saw t ∧ bpm_scale_factor bpm .saw t ≤ 1 := by
  have h0 := beat_progress_nonneg bpm t hb ht
  have h1 := beat_progress_lt_one bpm t hb ht
  rw [bpm_scale_factor_saw]
  refine ⟨by push_cast; ring, ?_, ?_⟩
  · exact_mod_cast (by linarith : (0 : ℚ) < 1 - beat_progress bpm t)
  · exact_mod_cast (by linarith : (1 : ℚ) - beat_progress bpm t ≤ 1)

/-- Witness for C2 at bpm = 120, t = 0. -/
theorem saw_scale_factor_witness :
    bpm_scale_factor 120 .saw 0 = 1 - (beat_progress 120 0 : ℝ) ∧
    0 < bpm_scale_factor 120 .saw 0 ∧ bpm_scale_factor 120 .saw 0 ≤ 1 :=
  saw_scale_factor 120 0 (by decide) (le_refl 0)

/-- C3: for every bpm > 0 and elapsed time t ≥ 0, the Square scale factor is
exactly 1.0 when the beat phase is below 0.5 and exactly 0.0 otherwise, and
it never takes an intermediate value. -/
theorem square_scale_factor (bpm : ℕ) (t : ℚ) (hb : 0 < bpm) (ht : 0 ≤ t) :
    (beat_progress bpm t < 1 / 2 → bpm_scale_factor bpm .square t = 1) ∧
    (1 / 2 ≤ beat_progress bpm t → bpm_scale_factor bpm .square t = 0) ∧
    (bpm_scale_factor bpm .square t = 1 ∨ bpm_scale_factor bpm .square t = 0) := by
  have hhalf : (0.5 : ℚ) = 1 / 2 := by norm_num
  rw [bpm_scale_factor_square, hhalf]
  by_cases h : beat_progress bpm t < 1 / 2
  · rw [if_pos h]
    exact ⟨fun _ => rfl, fun h2 => absurd h (not_lt.mpr h2), Or.inl rfl⟩
  · rw [if_neg h]
    exact ⟨fun h2 => absurd h2 h, fun _ => rfl, Or.inr rfl⟩

/-- Witness for C3 at bpm = 120, t = 0. -/
theorem square_scale_factor_witness :
    (beat_progress 120 0 < 1 / 2 → bpm_scale_factor 120 .square 0 = 1) ∧
    (1 / 2 ≤ beat_progress 120 0 → bpm_scale_factor 120 .square 0 = 0) ∧
    (bpm_scale_factor 120 .square 0 = 1 ∨ bpm_scale_factor 120 .square 0 = 0) :=
  square_scale_factor 120 0 (by decide) (le_refl 0)

/-- C8: the tempo modulator is deterministic: equal inputs yield equal
outputs, the result depending on nothing but (bpm, waveform, elapsed time). -/
theorem scale_factor_deterministic (bpm bpm' : ℕ) (w w' : WaveType) (t t' : ℚ)
    (hb : bpm = bpm') (hw : w = w') (ht : t = t') :
    bpm_scale_factor bpm w t = bpm_scale_factor bpm' w' t' := by
  subst hb; subst hw; subst ht; rfl

/-- Witness for C8 at bpm = 120, Square, t = 0. -/
theorem scale_factor_deterministic_witness :
    bpm_scale_factor 120 .square 0 = bpm_scale_factor 120 .square 0 :=
  scale_factor_deterministic 120 120 .square .square 0 0 rfl rfl rfl

/-! ### Color scaling -/

lemma f64_to_u8_eq_floor (x : ℝ) (h0 : 0 ≤ x) (h255 : x ≤ 255) :
    f64_to_u8 x = ⌊x⌋.toNat := by
  unfold f64_to_u8
  rw [if_neg (not_lt.mpr h0)]
  have hf : ⌊x⌋ ≤ 255 := by
    have h := Int.floor_le_floor h255
    simpa using h
  exact min_eq_right (Int.toNat_le.mpr (by exact_mod_cast hf))

lemma mul_scale_le_255 (n : ℕ) (s : ℝ) (hn : n < 256) (h0 : 0 ≤ s) (h1 : s ≤ 1) :
    (n : ℝ) * s ≤ 255 := by
  have hn' : (n : ℝ) ≤ 255 := by exact_mod_cast Nat.lt_succ_iff.mp hn
  calc (n : ℝ) * s ≤ (n : ℝ) * 1 :=
        mul_le_mul_of_nonneg_left h1 (Nat.cast_nonneg n)
    _ = (n : ℝ) := mul_one _
    _ ≤ 255 := hn'

/-- C4: for every 8-bit constant (r, g, b) and scale factor 0 ≤ s ≤ 1, the
modulated color is the component-wise float product re-quantized to 8 bits
by truncation toward zero (floor, since the products are nonnegative), not
by rounding to nearest. -/
theorem scaled_color_truncates (r g b : ℕ) (s : ℝ)
    (hr : r < 256) (hg : g < 256) (hb : b < 256) (h0 : 0 ≤ s) (h1 : s ≤ 1) :
    scaled_color (r, g, b) s =
      (⌊(r : ℝ) * s⌋.toNat, ⌊(g : ℝ) * s⌋.toNat, ⌊(b : ℝ) * s⌋.toNat) := by
  unfold scaled_color
  simp only
  rw [f64_to_u8_eq_floor _ (mul_nonneg (Nat.cast_nonneg r) h0) (mul_scale_le_255 r s hr h0 h1),
    f64_to_u8_eq_floor _ (mul_nonneg (Nat.cast_nonneg g) h0) (mul_scale_le_255 g s hg h0 h1),
    f64_to_u8_eq_floor _ (mul_nonneg (Nat.cast_nonneg b) h0) (mul_scale_le_255 b s hb h0 h1)]

/-- Witness for C4 at (255, 128, 7) and s = 1/2. -/
theorem scaled_color_truncates_witness :
    scaled_color (255, 128, 7) (1 / 2) =
      (⌊(255 : ℝ) * (1 / 2)⌋.toNat, ⌊(128 : ℝ) * (1 / 2)⌋.toNat,
        ⌊(7 : ℝ) * (1 / 2)⌋.toNat) :=
  scaled_color_truncates 255 128 7 (1 / 2) (by decide) (by decide) (by decide)
    (by norm_num) (by norm_num)

/-! ### Visualization mode parsing -/

/-- C6: for every oscillating visualization mode (sine, saw, square,
triangle), a missing bpm is fatal: the mode parse yields no configuration
(the program panics before decoding or encoding anything); the default mode
needs no bpm. -/
theorem bpm_required_for_osc (v : String)
    (hv : v = "sine" ∨ v = "saw" ∨ v = "square" ∨ v = "triangle") :
    parse_visualization_mode v none = none ∧
    (∀ bpm : Option ℕ, parse_visualization_mode "default" bpm = some .default) := by
  refine ⟨?_, fun bpm => rfl⟩
  rcases hv with h | h | h | h <;> rw [h] <;> rfl

/-- Witness for C6 at v = "sine". -/
theorem bpm_required_for_osc_witness :
    parse_visualization_mode "sine" none = none ∧
    (∀ bpm : Option ℕ, parse_visualization_mode "default" bpm = some .default) :=
  bpm_required_for_osc "sine" (Or.inl rfl)

/-! ### Sort thresholds -/

/-- C7: the Sort arm passes the configured thresholds multiplied by the
current scale factor to the sorter, and the sorter's threshold handling
(modelled from the spec, the sorter being external) clamps any value into
[0,1] rather than rejecting it, leaving in-range values unchanged. -/
theorem sort_thresholds_scaled_and_clamped (min_threshold max_threshold : ℚ)
    (s : ℝ) :
    sort_call_thresholds min_threshold max_threshold s =
      ((min_threshold : ℝ) * s, (max_threshold : ℝ) * s) ∧
    (∀ x : ℝ, 0 ≤ sorter_clamp_threshold x ∧ sorter_clamp_threshold x ≤ 1) ∧
    (∀ x : ℝ, 0 ≤ x → x ≤ 1 → sorter_clamp_threshold x = x) := by
  refine ⟨rfl, fun x => ⟨le_max_left 0 _, ?_⟩, fun x hx0 hx1 => ?_⟩
  · exact max_le (by norm_num) (min_le_left 1 x)
  · unfold sorter_clamp_threshold
    rw [min_eq_right hx1, max_eq_right hx0]

/-- Witness for C7: thresholds (1/4, 3/2) at scale factor 2; clamp fixes the
in-range value 1. -/
theorem sort_thresholds_scaled_and_clamped_witness :
    sort_call_thresholds (1 / 4) (3 / 2) 2 =
      (((1 / 4 : ℚ) : ℝ) * 2, ((3 / 2 : ℚ) : ℝ) * 2) ∧
    sorter_clamp_threshold 1 = 1 :=
  ⟨(sort_thresholds_scaled_and_clamped (1 / 4) (3 / 2) 2).1,
    (sort_thresholds_scaled_and_clamped (1 / 4) (3 / 2) 2).2.2 1 (by norm_num)
      (le_refl 1)⟩

/-! ### Frame pipeline -/

lemma process_frames_append_error (m : VisualizationMode)
    (fp : RgbImage → ℝ → RgbaImage) (r : ℚ) (good : List RgbImage)
    (bad : List (Except Unit RgbImage)) (t : ℚ) :
    process_frames m fp r t (good.map Except.ok ++ Except.error () :: bad) =
      process_frames m fp r t (good.map Except.ok) := by
  induction good generalizing t with
  | nil => rfl
  | cons f rest ih =>
      simp only [List.map_cons, List.cons_append, process_frames, List.append_eq]
      rw [ih]

lemma process_frames_default (fp : RgbImage → ℝ → RgbaImage) (r : ℚ)
    (good : List RgbImage) (t : ℚ) :
    process_frames .default fp r t (good.map Except.ok) =
      good.map fun frame => fp frame 1 := by
  induction good generalizing t with
  | nil => rfl
  | cons f rest ih =>
      simp only [List.map_cons, process_frames]
      rw [ih]

/-- C1 counterexample: with a decode error between two good frames, the
frame loop produces only the frame before the error — the error is treated
as end-of-stream, not skipped; skip-and-continue would have produced two
processed frames. -/
theorem decode_error_not_skipped :
    process_video
        [Except.ok ⟨1, 1, [⟨0, 0, 0⟩]⟩, Except.error (), Except.ok ⟨1, 1, [⟨0, 0, 0⟩]⟩]
        (fun _ _ => ⟨1, 1, [⟨9, 9, 9, 255⟩]⟩) 24 .default
      = [⟨1, 1, [⟨9, 9, 9, 255⟩]⟩] ∧
    ([(⟨1, 1, [⟨9, 9, 9, 255⟩]⟩ : RgbaImage)] ≠
      [⟨1, 1, [⟨9, 9, 9, 255⟩]⟩, ⟨1, 1, [⟨9, 9, 9, 255⟩]⟩]) :=
  ⟨rfl, by decide⟩

/-- C1 (amended): a per-frame decode error ends the frame loop: the frames
before the first error are processed and everything from the error on is
dropped, as if the stream had ended there. -/
theorem decode_error_ends_stream (good : List RgbImage)
    (bad : List (Except Unit RgbImage)) (fp : RgbImage → ℝ → RgbaImage)
    (frame_rate : ℚ) (m : VisualizationMode) :
    process_video (good.map Except.ok ++ Except.error () :: bad) fp frame_rate m =
      process_video (good.map Except.ok) fp frame_rate m :=
  process_frames_append_error m fp frame_rate good bad 0

/-- C9: in the default visualization mode every frame is processed with
scale factor exactly 1, independent of frame index and bpm, and scaling a
color constant by factor 1 is the identity, so the constant operand reaches
every operation unmodified. -/
theorem default_mode_scale_is_identity :
    (∀ (good : List RgbImage) (fp : RgbImage → ℝ → RgbaImage) (r : ℚ),
        process_video (good.map Except.ok) fp r .default =
          good.map fun frame => fp frame 1) ∧
    (∀ red green blue : ℕ, red < 256 → green < 256 → blue < 256 →
        scaled_color (red, green, blue) 1 = (red, green, blue)) := by
  constructor
  · intro good fp r
    exact process_frames_default fp r good 0
  · intro red green blue hr hg hb
    have h1 : ∀ n : ℕ, n < 256 → f64_to_u8 ((n : ℝ) * 1) = n := by
      intro n hn
      rw [f64_to_u8_eq_floor _ (by positivity) (mul_scale_le_255 n 1 hn zero_le_one (le_refl 1)),
        mul_one, Int.floor_natCast, Int.toNat_natCast]
    unfold scaled_color
    simp only
    rw [h1 red hr, h1 green hg, h1 blue hb]

/-- Witness for C9 at the color (255, 128, 7). -/
theorem default_mode_scale_is_identity_witness :
    scaled_color (255, 128, 7) 1 = (255, 128, 7) :=
  default_mode_scale_is_identity.2 255 128 7 (by decide) (by decide) (by decide)

/-! ### Encode loop -/

lemma encode_frames_length (frame_rate position : ℚ) (l : List RgbaImage) :
    (encode_frames frame_rate position l).length = l.length := by
  induction l generalizing position with
  | nil => rfl
  | cons f rest ih => simp [encode_frames, ih]

lemma encode_frames_getElem (frame_rate position : ℚ) (l : List RgbaImage)
    (k : ℕ) (frame : RgbaImage) (h : l[k]? = some frame) :
    (encode_frames frame_rate position l)[k]? =
      some (rgba_to_rgb frame, position + k * (1 / frame_rate)) := by
  induction l generalizing position k with
  | nil => simp at h
  | cons f rest ih =>
      cases k with
      | zero =>
          simp only [List.getElem?_cons_zero, Option.some_inj] at h
          subst h
          simp [encode_frames]
      | succ k =>
          simp only [List.getElem?_cons_succ] at h
          have hrec := ih (position + 1 / frame_rate) k h
          simp only [encode_frames, List.getElem?_cons_succ, hrec,
            Option.some_inj, Prod.mk.injEq, true_and]
          push_cast
          ring

/-- C5: the k-th processed frame (from 0) is handed to the encoder stamped
at `k * (1 / frame_rate)`, frames are encoded in decode order, and the
presentation time is strictly increasing across the encode loop. -/
theorem encode_order_and_timestamps (processed : List RgbaImage)
    (frame_rate : ℚ) (hr : 0 < frame_rate) :
    (encode_frames frame_rate 0 processed).length = processed.length ∧
    (∀ (k : ℕ) (frame : RgbaImage), processed[k]? = some frame →
      (encode_frames frame_rate 0 processed)[k]? =
        some (rgba_to_rgb frame, k * (1 / frame_rate))) ∧
    (∀ (i j : ℕ) (fi fj : RgbImage) (ti tj : ℚ),
      (encode_frames frame_rate 0 processed)[i]? = some (fi, ti) →
      (encode_frames frame_rate 0 processed)[j]? = some (fj, tj) →
      i < j → ti < tj) := by
  have hstamp : ∀ (k : ℕ) (frame : RgbaImage), processed[k]? = some frame →
      (encode_frames frame_rate 0 processed)[k]? =
        some (rgba_to_rgb frame, k * (1 / frame_rate)) := by
    intro k frame h
    have := encode_frames_getElem frame_rate 0 processed k frame h
    rwa [zero_add] at this
  have htime : ∀ (i : ℕ) (fi : RgbImage) (ti : ℚ),
      (encode_frames frame_rate 0 processed)[i]? = some (fi, ti) →
      ti = i * (1 / frame_rate) := by
    intro i fi ti h
    have hlt : i < processed.length := by
      have := List.getElem?_eq_some_iff.mp h
      rcases this with ⟨hlen, _⟩
      rwa [encode_frames_length] at hlen
    have hpi : processed[i]? = some processed[i] := List.getElem?_eq_getElem hlt
    have := hstamp i processed[i] hpi
    rw [h] at this
    exact ((Prod.mk.injEq _ _ _ _).mp (Option.some_inj.mp this)).2
  refine ⟨encode_frames_length frame_rate 0 processed, hstamp, ?_⟩
  intro i j fi fj ti tj hi hj hij
  rw [htime i fi ti hi, htime j fj tj hj]
  have hpos : 0 < 1 / frame_rate := by positivity
  have hij' : (i : ℚ) < (j : ℚ) := by exact_mod_cast hij
  exact mul_lt_mul_of_pos_right hij' hpos

/-- Witness for C5: a two-frame list at frame rate 24. -/
theorem encode_order_and_timestamps_witness :
    (encode_frames 24 0
        [⟨1, 1, [⟨0, 0, 0, 255⟩]⟩, ⟨1, 1, [⟨1, 1, 1, 255⟩]⟩]).length =
      ([⟨1, 1, [⟨0, 0, 0, 255⟩]⟩, ⟨1, 1, [⟨1, 1, 1, 255⟩]⟩] :
        List RgbaImage).length :=
  (encode_order_and_timestamps
    [⟨1, 1, [⟨0, 0, 0, 255⟩]⟩, ⟨1, 1, [⟨1, 1, 1, 255⟩]⟩] 24 (by norm_num)).1

/-! ### RGBA to RGB conversion -/

/-- C10: `rgba_to_rgb` preserves width and height and maps each pixel
(r, g, b, a) to (r, g, b); consequently the encoder input is independent of
the alpha channel: two processed frame lists that agree except on alpha are
encoded identically. -/
theorem rgba_to_rgb_drops_alpha (image image2 : RgbaImage) :
    (rgba_to_rgb image).width = image.width ∧
    (rgba_to_rgb image).height = image.height ∧
    (rgba_to_rgb image).pixels = image.pixels.map drop_alpha ∧
    (image.width = image2.width → image.height = image2.height →
      image.pixels.map drop_alpha = image2.pixels.map drop_alpha →
      rgba_to_rgb image = rgba_to_rgb image2) ∧
    (∀ (l l2 : List RgbaImage) (r p : ℚ), l.map rgba_to_rgb = l2.map rgba_to_rgb →
      encode_frames r p l = encode_frames r p l2) := by
  refine ⟨rfl, rfl, rfl, ?_, ?_⟩
  · intro hw hh hp
    unfold rgba_to_rgb
    rw [hw, hh, hp]
  · intro l l2 r p h
    induction l generalizing l2 p with
    | nil =>
        cases l2 with
        | nil => rfl
        | cons g gs => simp at h
    | cons f fs ih =>
        cases l2 with
        | nil => simp at h
        | cons g gs =>
            simp only [List.map_cons, List.cons.injEq] at h
            simp only [encode_frames, h.1, ih gs (p + 1 / r) h.2]

/-- Witness for C10: two single-pixel images differing only in alpha
convert to the same RGB image. -/
theorem rgba_to_rgb_drops_alpha_witness :
    rgba_to_rgb ⟨1, 1, [⟨1, 2, 3, 4⟩]⟩ = rgba_to_rgb ⟨1, 1, [⟨1, 2, 3, 200⟩]⟩ :=
  (rgba_to_rgb_drops_alpha ⟨1, 1, [⟨1, 2, 3, 4⟩]⟩ ⟨1, 1, [⟨1, 2, 3, 200⟩]⟩).2.2.2.1
    rfl rfl (by decide)

end Vidfx
